import Mathlib

/-
Verification of the hmi-live live-tag distribution engine
(src/DemoHMI/liveDataAPI/index.js) against its specification.

The engine is shallowly embedded: JS primitive values become the inductive
type JSVal, the poll-tick diff (startPolling, lines 286-301) becomes a pure
fold over the tag list, the PLC liveness detector (computePlcCommsState,
lines 235-278) becomes a state-passing function, the SSE fan-out loops
become pure functions over a client list, and the template resolver /
registry builder (lines 62-172) operate on a JSON-like tree type JTree.
Timestamps (Date.now()) are modelled as integers supplied by the caller;
the upstream snapshot (the result of readOne on myDataAll) is modelled as
a function from tag name to a value/timestamp pair.
-/

namespace HmiLive

/-- JS primitive values as they occur in tag snapshots: numbers, strings,
booleans and null.  Numeric values are modelled as integers (the heartbeat,
handshake and tag values exercised by the engine are integral); JS strict
equality on these primitives is structural equality of this type. -/
inductive JSVal where
  | num (n : Int)
  | str (s : String)
  | bool (b : Bool)
  | null
deriving DecidableEq, Repr

/-- ASCII lower-casing of one character, as String.prototype.toLowerCase
acts on the ASCII tag names used by the engine. -/
def lcChar (c : Char) : Char :=
  if 'A' ≤ c ∧ c ≤ 'Z' then Char.ofNat (c.toNat + 32) else c

/-- Lower-case a string character-wise (JS toLowerCase on ASCII input). -/
def lowerStr (s : String) : String := String.mk (s.data.map lcChar)

/-- Whether the first list is an initial segment of the second. -/
def startsSeq : List Char → List Char → Bool
  | [], _ => true
  | _ :: _, [] => false
  | a :: as, b :: bs => a = b && startsSeq as bs

/-- Whether needle occurs contiguously inside hay (JS String.includes). -/
def containsSeq (hay needle : List Char) : Bool :=
  if startsSeq needle hay then true
  else
    match hay with
    | [] => false
    | _ :: t => containsSeq t needle

/-- JS s.includes(sub). -/
def strIncludes (s sub : String) : Bool := containsSeq s.data sub.data

/-- JS s.startsWith(pre). -/
def strStarts (s pre : String) : Bool := startsSeq pre.data s.data

/-- Value of an all-digit character list read as a decimal natural. -/
def digitsToNat (ds : List Char) : Nat :=
  ds.foldl (fun a c => a * 10 + (c.toNat - '0'.toNat)) 0

/-- Whitespace for the purposes of JS String.trim on the inputs at hand. -/
def isWS (c : Char) : Bool := c = ' ' || c = '\t' || c = '\n' || c = '\r'

/-- JS String.trim restricted to ASCII whitespace. -/
def trimStr (s : String) : String :=
  String.mk (((s.data.dropWhile isWS).reverse.dropWhile isWS).reverse)

/-- JS Number(s) for a string, restricted to optionally signed decimal
integer literals (the shapes a PLC counter/heartbeat tag produces); none
models NaN / a non-finite result.  The empty (or all-blank) string converts
to 0 as in JS. -/
def strToNumber (s : String) : Option Int :=
  let t := (trimStr s).data
  if t.isEmpty then some 0
  else
    match t with
    | '-' :: ds => if ds ≠ [] ∧ ds.all Char.isDigit then some (-(digitsToNat ds : Int)) else none
    | '+' :: ds => if ds ≠ [] ∧ ds.all Char.isDigit then some ((digitsToNat ds : Int)) else none
    | ds => if ds.all Char.isDigit then some ((digitsToNat ds : Int)) else none

/-- JS Number(v) on a primitive value; none models a result that fails
Number.isFinite (NaN or an infinity).  Number(null) is 0, booleans convert
to 0/1, strings are parsed. -/
def toNumber : JSVal → Option Int
  | .num n => some n
  | .null => some 0
  | .bool b => some (if b then 1 else 0)
  | .str s => strToNumber s

/-- Internal liveness state of the engine: lastBeatTs (null before any
beat) and lastBeatVal, where none models the initial JS undefined
(lines 24-25 of the source). -/
structure BeatState where
  lastBeatTs : Option Int
  lastBeatVal : Option JSVal
deriving DecidableEq, Repr

/-- Beat detection of computePlcCommsState (lines 242-260): the tag name is
classified by lower-cased substring match; a heartbeat tag beats on any
strict-inequality change from the previously recorded raw value, a
handshake tag beats when its value converts to a finite number that is
at least 0 and either no previous raw value was recorded or the numeric
value differs, and any other tag falls back to the heartbeat rule. -/
def beatDetected (hbTag : String) (st : BeatState) (hbVal : JSVal) : Bool :=
  let lc := lowerStr hbTag
  if strIncludes lc "heartbeat" then
    match st.lastBeatVal with
    | none => false
    | some lv => decide (hbVal ≠ lv)
  else if strIncludes lc "handshake" then
    match toNumber hbVal with
    | none => false
    | some n =>
      if 0 ≤ n then
        match st.lastBeatVal with
        | none => true
        | some lv =>
          match toNumber lv with
          | none => true
          | some m => decide (n ≠ m)
      else false
  else
    match st.lastBeatVal with
    | none => false
    | some lv => decide (hbVal ≠ lv)

/-- State advance of computePlcCommsState when advanceState is set
(lines 262-267): on a detected beat lastBeatTs becomes now, and
lastBeatVal always becomes the raw value just read. -/
def advanceBeat (hbTag : String) (now : Int) (hbVal : JSVal) (st : BeatState) : BeatState :=
  { lastBeatTs := if beatDetected hbTag st hbVal then some now else st.lastBeatTs
    lastBeatVal := some hbVal }

/-- Result record of computePlcCommsState (lines 271-277). -/
structure CommsResult where
  ok : Bool
  ts : Int
  tag : String
  value : JSVal
  timeoutMs : Int
deriving DecidableEq, Repr

/-- computePlcCommsState (lines 235-278): optionally advances the beat
state, then reports ok iff a beat timestamp is recorded (in the possibly
advanced state) and it is at most timeoutMs milliseconds old. -/
def computePlcCommsState (timeoutMs : Int) (hbTag : String) (hbVal : JSVal)
    (now : Int) (advanceState : Bool) (st : BeatState) : BeatState × CommsResult :=
  let st2 := if advanceState then advanceBeat hbTag now hbVal st else st
  let ok :=
    match st2.lastBeatTs with
    | none => false
    | some t => decide (now - t ≤ timeoutMs)
  (st2, { ok := ok, ts := now, tag := hbTag, value := hbVal, timeoutMs := timeoutMs })

/-- Default heartbeat timeout window: 6 poll intervals (line 30, the value
of HEARTBEAT_TIMEOUT_MS when the environment does not override it). -/
def defaultHeartbeatTimeoutMs (pollMs : Int) : Int := pollMs * 6

/-- Classification of the beat tag name used by the detector. -/
inductive BeatClass where
  | heartbeat
  | handshake
  | generic
deriving DecidableEq, Repr

/-- Name classification order of computePlcCommsState (lines 242-244 and
the if/else chain at 248-260): heartbeat wins over handshake. -/
def classify (hbTag : String) : BeatClass :=
  let lc := lowerStr hbTag
  if strIncludes lc "heartbeat" then .heartbeat
  else if strIncludes lc "handshake" then .handshake
  else .generic

/-- The handshake guard of line 253-254: the value converts to a finite
number that is at least 0. -/
def nonNegNumber (v : JSVal) : Bool :=
  match toNumber v with
  | none => false
  | some n => decide (0 ≤ n)

/-- Sequence of beat-detected flags obtained by evaluating the detector on
consecutive values with state advancing between evaluations, as the poll
loop does tick after tick (the flag does not depend on the clock, so the
advance is taken at time 0). -/
def beatFlags (hbTag : String) : BeatState → List JSVal → List Bool
  | _, [] => []
  | st, v :: vs => beatDetected hbTag st v :: beatFlags hbTag (advanceBeat hbTag 0 v st) vs

/-- Result of reading one tag from the upstream snapshot (the value and
optional source timestamp produced by readOne, lines 180-206; a missing
tag reads as value null, timestamp null). -/
structure ReadRes where
  value : JSVal
  ts : Option Int
deriving DecidableEq, Repr

/-- One entry of the lastSent map (line 19): last value and timestamp
broadcast for a tag. -/
structure SentEntry where
  value : JSVal
  ts : Int
deriving DecidableEq, Repr

/-- One element of a patch batch (line 297). -/
structure Update where
  tagId : String
  value : JSVal
  ts : Int
deriving DecidableEq, Repr

/-- The change test of line 292: a tag is changed when it has no stored
entry or its current value differs by strict inequality from the stored
value. -/
def valueChanged (prev : Option SentEntry) (cur : ReadRes) : Bool :=
  match prev with
  | none => true
  | some p => decide (p.value ≠ cur.value)

/-- The lastSent map, keyed by tag name. -/
abbrev SentMap := String → Option SentEntry

/-- Point update of the lastSent map (lastSent.set). -/
def setEntry (m : SentMap) (t : String) (e : SentEntry) : SentMap :=
  fun x => if x = t then some e else m x

/-- Per-tag body of the diff loop of startPolling (lines 288-301): on a
value change the entry is stored with the source timestamp (or the current
time when the source has none) and an update is appended to the batch; on
an unchanged value with a strictly newer source timestamp only the stored
timestamp is refreshed; otherwise nothing happens. -/
def diffStep (now : Int) (data : String → ReadRes) (acc : SentMap × List Update)
    (t : String) : SentMap × List Update :=
  let cur := data t
  let prev := acc.1 t
  if valueChanged prev cur then
    let ts := cur.ts.getD now
    (setEntry acc.1 t ⟨cur.value, ts⟩, acc.2 ++ [⟨t, cur.value, ts⟩])
  else
    match prev, cur.ts with
    | some p, some ts2 => if p.ts < ts2 then (setEntry acc.1 t ⟨p.value, ts2⟩, acc.2) else acc
    | _, _ => acc

/-- The whole diff phase of one poll tick: fold of diffStep over the
registry's tag list, producing the new lastSent map and the patch batch. -/
def pollDiff (now : Int) (data : String → ReadRes) (ls : SentMap)
    (tags : List String) : SentMap × List Update :=
  tags.foldl (diffStep now data) (ls, [])

/-- The entry stored for a single tag after its diff-loop iteration,
expressed directly on the previous entry and the current read. -/
def tickEntry (now : Int) (prev : Option SentEntry) (cur : ReadRes) : Option SentEntry :=
  if valueChanged prev cur then some ⟨cur.value, cur.ts.getD now⟩
  else
    match prev, cur.ts with
    | some p, some ts2 => if p.ts < ts2 then some ⟨p.value, ts2⟩ else prev
    | _, _ => prev

/-- Operations of the engine that touch (or not) the liveness state:
a poll tick (line 307, advanceState true), a client connecting to the
streaming endpoint /hmi-data (line 429, also advanceState true), and the
read-only /status and /hmi-structure endpoints, which never call
computePlcCommsState. -/
inductive EngineOp where
  | pollTickOp (now : Int) (v : JSVal)
  | clientConnectOp (now : Int) (v : JSVal)
  | statusQueryOp
  | structureQueryOp
deriving DecidableEq, Repr

/-- Effect of each engine operation on the beat state, read off from which
handlers call computePlcCommsState with advanceState set. -/
def stepBeat (hbTag : String) (st : BeatState) : EngineOp → BeatState
  | .pollTickOp now v => advanceBeat hbTag now v st
  | .clientConnectOp now v => advanceBeat hbTag now v st
  | .statusQueryOp => st
  | .structureQueryOp => st

/-- Whether an operation is a tick of the poll timer. -/
def isPollTickOp : EngineOp → Bool
  | .pollTickOp _ _ => true
  | _ => false

/-- A registered SSE client, identified by an id, together with whether a
write to its response stream throws. -/
structure SClient where
  id : Nat
  failing : Bool
deriving DecidableEq, Repr

/-- The patch and plc-comms broadcast loops of the poll tick (lines 303 and
311): a bare for-loop over sseClients with no per-client try/catch, so a
throwing write aborts the loop.  Returns the ids that received the event,
in iteration order, and whether the loop terminated by throwing.  The
client set itself is not modified by the loop. -/
def tickBroadcast : List SClient → List Nat × Bool
  | [] => ([], false)
  | c :: rest =>
    if c.failing then ([], true)
    else
      let r := tickBroadcast rest
      (c.id :: r.1, r.2)

/-- The keepalive loop (lines 490-495): each write is wrapped in its own
try/catch, so a failing client is skipped and the loop continues.  No
client is removed here either. -/
def keepaliveRound (cs : List SClient) : List Nat :=
  (cs.filter (fun c => !c.failing)).map (fun c => c.id)

/-- The set of registered clients after a tick broadcast or a keepalive
round: neither loop contains an sseClients.delete, so the set is returned
unchanged; removal happens only in the close handler (lines 441-443). -/
def clientsAfterBroadcast (cs : List SClient) : List SClient := cs

/-- The close handler (lines 441-443): sseClients.delete(res). -/
def closeClient (cs : List SClient) (c : SClient) : List SClient :=
  cs.filter (fun x => x ≠ c)

/-- Events a streaming client can receive (the keepalive heartbeat event is
untyped payload and not modelled as a separate constructor here). -/
inductive CEvent where
  | hello (ts : Int)
  | patch (updates : List Update)
  | commsEv (r : CommsResult)
deriving DecidableEq, Repr

/-- Whether an event is a patch event. -/
def isPatchEvent : CEvent → Bool
  | .patch _ => true
  | _ => false

/-- The /hmi-data connect handler (lines 405-444), on the path where the
snapshot read succeeds: a hello event is written first, then the initial
snapshot of every registry tag is written as one patch event provided it
is non-empty (the if at line 425), then computePlcCommsState is evaluated
with advanceState set and written as a plc-comms event.  Returns the
events in write order together with the advanced beat state. -/
def connectEvents (now timeoutMs : Int) (hbTag : String) (data : String → ReadRes)
    (tags : List String) (st : BeatState) : List CEvent × BeatState :=
  let initial : List Update := tags.map (fun t => ⟨t, (data t).value, (data t).ts.getD now⟩)
  let pre := [CEvent.hello now] ++ (if initial.isEmpty then [] else [CEvent.patch initial])
  let r := computePlcCommsState timeoutMs hbTag ((data hbTag).value) now true st
  (pre ++ [CEvent.commsEv r.2], r.1)

/-- The stream a client observes: its connect-time events followed by
whatever events later poll ticks broadcast to it. -/
def clientStream (now timeoutMs : Int) (hbTag : String) (data : String → ReadRes)
    (tags : List String) (st : BeatState) (later : List CEvent) : List CEvent :=
  (connectEvents now timeoutMs hbTag data tags st).1 ++ later

/-- Whole-engine mutable state touched by a poll tick: the lastSent map
(line 19), the beat state (lines 24-25) and lastCommsOk (line 26). -/
structure EngineState where
  lastSent : SentMap
  beat : BeatState
  lastCommsOk : Option Bool

/-- One poll tick (lines 282-317) with the upstream query modelled per
call: getAllData is invoked once for the diff phase (line 284) and, via
computePlcCommsState, a second time for the liveness phase (line 236);
none models a call that throws.  The tick body runs inside one try/catch,
so everything already performed before a throw persists and everything
after it is skipped: a throw on the first call makes the tick a no-op,
a throw on the second call keeps the diff phase's state update and patch
broadcast but leaves the liveness state and comms announcement untouched.
Patch events are broadcast only when the batch and the client set are both
non-empty (line 302); a comms event is broadcast on announced-state
transitions only (lines 308-313), and lastCommsOk is updated even when no
client is connected. -/
def runTick (timeoutMs : Int) (hbTag : String) (now : Int) (tags : List String)
    (clientCount : Nat) (q1 q2 : Option (String → ReadRes)) (st : EngineState) :
    EngineState × List CEvent :=
  match q1 with
  | none => (st, [])
  | some data =>
    let d := pollDiff now data st.lastSent tags
    let evs1 : List CEvent :=
      if d.2.isEmpty || clientCount == 0 then [] else [CEvent.patch d.2]
    match q2 with
    | none => ({ st with lastSent := d.1 }, evs1)
    | some data2 =>
      let r := computePlcCommsState timeoutMs hbTag ((data2 hbTag).value) now true st.beat
      let transition := st.lastCommsOk = none ∨ st.lastCommsOk ≠ some r.2.ok
      let lastCommsOk2 := if transition then some r.2.ok else st.lastCommsOk
      let evs2 : List CEvent :=
        if transition ∧ clientCount ≠ 0 then [CEvent.commsEv r.2] else []
      (⟨d.1, r.1, lastCommsOk2⟩, evs1 ++ evs2)

/-- The poll timer: ticks repeat on the interval regardless of earlier
failures (setInterval is never cleared by the tick body; the catch at
line 314 swallows every error).  Each list element carries one tick's
clock value and the two per-tick outcomes of the upstream query. -/
def runLoop (timeoutMs : Int) (hbTag : String) (tags : List String) (clientCount : Nat) :
    EngineState → List (Int × Option (String → ReadRes) × Option (String → ReadRes)) →
    EngineState × List CEvent
  | st, [] => (st, [])
  | st, (now, q1, q2) :: rest =>
    let r := runTick timeoutMs hbTag now tags clientCount q1 q2 st
    let r2 := runLoop timeoutMs hbTag tags clientCount r.1 rest
    (r2.1, r.2 ++ r2.2)

/-- JSON-like values as they occur in the layout tree and in template
metadata records: strings, numbers, booleans, null, arrays and objects
(an object is its ordered field list, as JSON parsing preserves order). -/
inductive JTree where
  | str (s : String)
  | num (n : Int)
  | bool (b : Bool)
  | null
  | arr (xs : List JTree)
  | obj (fields : List (String × JTree))

/-- A metadata record (template, resolved meta, override): a JS object. -/
abbrev Obj := List (String × JTree)

/-- JS truthiness of a JSON value. -/
def truthy : JTree → Bool
  | .str s => decide (s ≠ "")
  | .num n => decide (n ≠ 0)
  | .bool b => b
  | .null => false
  | .arr _ => true
  | .obj _ => true

/-- Property read on an object: the first field with the given key. -/
def objGet : Obj → String → Option JTree
  | [], _ => none
  | p :: rest, k => if p.1 == k then some p.2 else objGet rest k

/-- Property write on an object: an existing key keeps its position (every
field with that key is overwritten), a new key is appended, as JS object
assignment and spread behave. -/
def objSet (o : Obj) (k : String) (v : JTree) : Obj :=
  if o.any (fun p => p.1 == k) then o.map (fun p => if p.1 == k then (k, v) else p)
  else o ++ [(k, v)]

/-- Spread of one object over another: target fields first, each source
field assigned in order. -/
def objSpread (o : Obj) (fields : Obj) : Obj :=
  fields.foldl (fun a p => objSet a p.1 p.2) o

/-- JS object spread of an arbitrary value into an object (the merged
override of line 165 can be any truthy value): objects spread their
fields, arrays and strings spread their indexed elements, primitives
spread nothing. -/
def spreadVal (o : Obj) : JTree → Obj
  | .obj fs => objSpread o fs
  | .arr xs => objSpread o (xs.enum.map (fun p => (toString p.1, p.2)))
  | .str s => objSpread o (s.data.enum.map (fun p => (toString p.1, JTree.str (String.mk [p.2]))))
  | _ => o

/-- All ways the digit-greedy group of captureNumbers can split the input:
a non-empty all-digit prefix together with the rest, longest first, which
is the order a backtracking regex engine tries for an anchored
one-or-more-digits capture group. -/
def greedySplits (cs : List Char) : List (List Char × List Char) :=
  let n := (cs.takeWhile Char.isDigit).length
  (List.range n).map (fun i => (cs.take (n - i), cs.drop (n - i)))

/-- The template matcher of captureNumbers (lines 65-71): the template is
matched against the concrete tag with every character literal except the
hash placeholder, which matches one or more digits (greedy, with
backtracking) and captures them; the match is anchored at both ends.
Returns the captured digit strings in order, or none when the template
does not match. -/
def tplMatch : List Char → List Char → Option (List String)
  | [], cs => if cs.isEmpty then some [] else none
  | t :: ts, cs =>
    if t = '#' then
      (greedySplits cs).findSome? (fun pr =>
        (tplMatch ts pr.2).map (fun caps => String.mk pr.1 :: caps))
    else
      match cs with
      | [] => none
      | c :: cs2 => if c = t then tplMatch ts cs2 else none

/-- captureNumbers(concrete, templateWithHashes) in terms of strings. -/
def captureNumbers (concrete template : String) : Option (List String) :=
  tplMatch template.data concrete.data

/-- Character-level body of applyCaptures (line 77): each hash is replaced
by the capture at the running index (empty string past the end); other
characters are kept. -/
def applyCapturesGo : List Char → List String → Nat → List Char
  | [], _, _ => []
  | c :: cs, caps, i =>
    if c = '#' then (caps.getD i "").data ++ applyCapturesGo cs caps (i + 1)
    else c :: applyCapturesGo cs caps i

/-- applyCaptures (lines 74-78): an empty string or an empty capture list
is returned unchanged (the guard of line 75); otherwise every hash is
replaced by the next capture, left to right, with the index starting at 0
on every call. -/
def applyCaptures (s : String) (caps : List String) : String :=
  if s = "" ∨ caps = [] then s
  else String.mk (applyCapturesGo s.data caps 0)

/-- The captures materializeTemplate computes from the template's own
tagId field (line 82).  The template records built by the engine always
carry a string tagId. -/
def capsOf (tpl : Obj) (concrete : String) : Option (List String) :=
  match objGet tpl "tagId" with
  | some (.str t) => tplMatch t.data concrete.data
  | _ => none

/-- materializeTemplate (lines 81-93): copy the template, overwrite tagId
with the concrete tag, and pass the label and description fields (when
they are strings) through applyCaptures with the captured digits (an
absent match contributes the empty capture list, line 86). -/
def materializeTemplate (tpl : Obj) (concreteTag : String) : Obj :=
  let caps := capsOf tpl concreteTag
  let m1 := objSet tpl "tagId" (.str concreteTag)
  let m2 :=
    match objGet m1 "label" with
    | some (.str s) => objSet m1 "label" (.str (applyCaptures s (caps.getD [])))
    | _ => m1
  match objGet m2 "description" with
  | some (.str s) => objSet m2 "description" (.str (applyCaptures s (caps.getD [])))
  | _ => m2

/-- Tail test for the digit block of the two Feedpoint alternatives of
TAG_REGEX: one or more digits followed by an underscore. -/
def digitsUnderscoreAfter (cs : List Char) : Bool :=
  let ds := cs.takeWhile Char.isDigit
  decide (ds ≠ []) &&
    (match cs.drop ds.length with
     | '_' :: _ => true
     | _ => false)

/-- Remainder of hay after removing needle as a prefix, when possible. -/
def afterSeq : List Char → List Char → Option (List Char)
  | [], hay => some hay
  | _ :: _, [] => none
  | n :: ns, h :: hs => if h = n then afterSeq ns hs else none

/-- TAG_REGEX (line 97): the tag-name shape test applied to collected
strings. -/
def tagRegexTest (s : String) : Bool :=
  strStarts s "TOHMI_" || strStarts s "FRMHMI_" || strStarts s "ALARM_" ||
  strStarts s "WARNING_" ||
  (match afterSeq "Feedpoint".data s.data with
   | some rest => digitsUnderscoreAfter rest
   | none => false) ||
  (match afterSeq "Recipe_Feedpoint".data s.data with
   | some rest => digitsUnderscoreAfter rest
   | none => false)

/-- Collector state of collectConcreteTags (lines 100-101): the found
entries in first-seen order, each with its optional override value, and
the seen set. -/
structure ScanSt where
  found : List (String × Option JTree)
  seen : List String

/-- The add closure of collectConcreteTags (lines 103-109): trim, test the
tag shape, deduplicate against seen, then record the entry. -/
def addTag (st : ScanSt) (raw : String) (ov : Option JTree) : ScanSt :=
  if raw = "" then st
  else
    let id := trimStr raw
    if id = "" || !tagRegexTest id || st.seen.contains id then st
    else ⟨st.found ++ [(id, ov)], id :: st.seen⟩

/-- Keys the object walk skips (line 133). -/
def skipKeys : List String := ["override", "component", "key", "title", "id"]

/-- The tagId/override extraction performed on an object before its fields
are walked (lines 129-131): a string tagId field is added with the
override field as override when that value is truthy (val.override ||
null). -/
def objEntryAdd (st : ScanSt) (fields : Obj) : ScanSt :=
  match objGet fields "tagId" with
  | some (.str t) =>
    addTag st t
      (match objGet fields "override" with
       | some ov => if truthy ov then some ov else none
       | none => none)
  | _ => st

mutual

/-- The recursive scan of collectConcreteTags (lines 111-137): strings not
starting with the translation-key marker are added, arrays are walked
element-wise, and objects first contribute their tagId/override pair and
then have every non-skipped field walked. -/
def scanTree (st : ScanSt) : JTree → ScanSt
  | .str s => if strStarts s "key_" then st else addTag st s none
  | .num _ => st
  | .bool _ => st
  | .null => st
  | .arr xs => scanList st xs
  | .obj fields => scanFields (objEntryAdd st fields) fields

/-- Walk of an array of layout values. -/
def scanList (st : ScanSt) : List JTree → ScanSt
  | [] => st
  | x :: xs => scanList (scanTree st x) xs

/-- Walk of an object's fields, skipping the allow-listed keys. -/
def scanFields (st : ScanSt) : List (String × JTree) → ScanSt
  | [] => st
  | (k, v) :: rest => scanFields (if skipKeys.contains k then st else scanTree st v) rest

end

/-- collectConcreteTags (lines 99-148): iterate pages, sections and items
(falling back to widgets when a section has no items array) and scan each
item, returning the found entries. -/
def collectConcreteTags (layout : JTree) : List (String × Option JTree) :=
  let pages :=
    match layout with
    | .obj fs =>
      match objGet fs "pages" with
      | some (.arr xs) => xs
      | _ => []
    | _ => []
  let scanPage := fun (st : ScanSt) (p : JTree) =>
    let sections :=
      match p with
      | .obj fs =>
        match objGet fs "sections" with
        | some (.arr xs) => xs
        | _ => []
      | _ => []
    sections.foldl (fun st2 s =>
      let items :=
        match s with
        | .obj fs =>
          match objGet fs "items" with
          | some (.arr xs) => xs
          | _ =>
            match objGet fs "widgets" with
            | some (.arr xs) => xs
            | _ => []
        | _ => []
      items.foldl scanTree st2) st
  (pages.foldl scanPage ⟨[], []⟩).found

/-- The generic fallback metadata record of buildRegistry (line 163). -/
def fallbackMeta (tagId : String) : Obj :=
  [("tagId", .str tagId), ("label", .str tagId), ("widget", .str "raw"),
   ("valueType", .str "string")]

/-- The registry: ordered deduplicated tag list plus the tag-to-metadata
map (modelled as an association list in insertion order). -/
structure Registry where
  tags : List String
  metaByTag : List (String × Obj)

/-- Metadata lookup in the registry map. -/
def lookupMeta : List (String × Obj) → String → Option Obj
  | [], _ => none
  | p :: rest, t => if p.1 == t then some p.2 else lookupMeta rest t

/-- Body of the buildRegistry loop (lines 157-170): pick the first
template of the table whose tagId pattern matches (an empty capture array
from a zero-placeholder template is truthy and still counts as a match),
fall back to the generic record, materialize, shallow-merge the override
on top, and insert unless the tag is already present. -/
def regStep (widgetsMap : List (String × Obj)) (acc : Registry)
    (e : String × Option JTree) : Registry :=
  let tagId := e.1
  let chosen := widgetsMap.find? (fun p => (tplMatch p.1.data tagId.data).isSome)
  let base :=
    match chosen with
    | some p => p.2
    | none => fallbackMeta tagId
  let concreteMeta := materializeTemplate base tagId
  let merged :=
    match e.2 with
    | some ov => spreadVal concreteMeta ov
    | none => concreteMeta
  if (lookupMeta acc.metaByTag tagId).isSome then acc
  else ⟨acc.tags ++ [tagId], acc.metaByTag ++ [(tagId, merged)]⟩

/-- buildRegistry (lines 151-172). -/
def buildRegistry (layout : JTree) (widgetsMap : List (String × Obj)) : Registry :=
  (collectConcreteTags layout).foldl (regStep widgetsMap) ⟨[], []⟩

/-- A minimal layout referencing the tag of the fallback-metadata test:
one page, one section, one plain string item. -/
def exampleLayout : JTree :=
  .obj [("pages", .arr [.obj [("sections", .arr [.obj [("items",
    .arr [.str "TOHMI_Feedpoint2_currentJob"])]])]])]

end HmiLive

namespace HmiLive

/-- C6: with a beat tag classified as heartbeat, feeding the value sequence
0,0,1,1,0 across five consecutive state-advancing evaluations starting from
the initial state detects a beat exactly on evaluations 3 and 5. -/
theorem heartbeat_toggle_sequence (hbTag : String)
    (h : strIncludes (lowerStr hbTag) "heartbeat" = true) :
    beatFlags hbTag ⟨none, none⟩
      [JSVal.num 0, JSVal.num 0, JSVal.num 1, JSVal.num 1, JSVal.num 0]
      = [false, false, true, false, true] := by
  simp [beatFlags, beatDetected, advanceBeat, h]

/-- Witness for heartbeat_toggle_sequence at the concrete tag name
"Heartbeat". -/
theorem heartbeat_toggle_sequence_witness :
    strIncludes (lowerStr "Heartbeat") "heartbeat" = true ∧
    beatFlags "Heartbeat" ⟨none, none⟩
      [JSVal.num 0, JSVal.num 0, JSVal.num 1, JSVal.num 1, JSVal.num 0]
      = [false, false, true, false, true] :=
  ⟨by decide, heartbeat_toggle_sequence "Heartbeat" (by decide)⟩

/-- C10: on the very first state-advancing evaluation (no previous raw
value), the detector fires exactly for a handshake-classified tag whose
value is a finite number at least 0; heartbeat-classified and generic tags
never fire on the first evaluation; and for a handshake-classified tag a
value that is not a finite non-negative number never counts as a beat in
any state. -/
theorem first_evaluation_beat_asymmetry (hbTag : String) (v : JSVal)
    (ts : Option Int) (st : BeatState) :
    (beatDetected hbTag ⟨ts, none⟩ v
        = ((classify hbTag == BeatClass.handshake) && nonNegNumber v))
    ∧ ((beatDetected hbTag st v
        && ((classify hbTag == BeatClass.handshake) && !nonNegNumber v)) = false) := by
  constructor
  · by_cases h1 : strIncludes (lowerStr hbTag) "heartbeat" = true
    · simp [beatDetected, classify, h1]
    · by_cases h2 : strIncludes (lowerStr hbTag) "handshake" = true
      · simp only [beatDetected, classify, h1, h2, Bool.false_eq_true, if_false, if_true,
          nonNegNumber]
        cases htn : toNumber v with
        | none => simp
        | some n => by_cases hn : 0 ≤ n <;> simp [hn]
      · simp [beatDetected, classify, h1, h2]
  · by_cases h1 : strIncludes (lowerStr hbTag) "heartbeat" = true
    · simp [classify, h1]
    · by_cases h2 : strIncludes (lowerStr hbTag) "handshake" = true
      · simp only [beatDetected, classify, h1, h2, Bool.false_eq_true, if_false, if_true,
          nonNegNumber]
        cases htn : toNumber v with
        | none => simp
        | some n => by_cases hn : 0 ≤ n <;> simp [hn]
      · simp [classify, h1, h2]

/-- C5: liveness predicate and boundary.  After an evaluation, ok holds iff
the (advanced) state records a beat timestamp at most timeoutMs old, the
default window is six poll intervals, and with no further beat an
evaluation one millisecond inside the window reports ok while one
millisecond past it does not. -/
theorem liveness_window_boundary (pollMs t now : Int) (hbTag : String) (v : JSVal)
    (st : BeatState) (hts : st.lastBeatTs = some t)
    (hnb : beatDetected hbTag st v = false) :
    (∀ m : Int, ((computePlcCommsState m hbTag v now true st).2.ok = true
        ↔ ∃ tb, (computePlcCommsState m hbTag v now true st).1.lastBeatTs = some tb
            ∧ now - tb ≤ m))
    ∧ defaultHeartbeatTimeoutMs pollMs = 6 * pollMs
    ∧ (computePlcCommsState (defaultHeartbeatTimeoutMs pollMs) hbTag v
        (t + defaultHeartbeatTimeoutMs pollMs - 1) true st).2.ok = true
    ∧ (computePlcCommsState (defaultHeartbeatTimeoutMs pollMs) hbTag v
        (t + defaultHeartbeatTimeoutMs pollMs + 1) true st).2.ok = false := by
  refine ⟨?_, by simp [defaultHeartbeatTimeoutMs, Int.mul_comm], ?_, ?_⟩
  · intro m
    simp only [computePlcCommsState, advanceBeat, if_true]
    cases hb : beatDetected hbTag st v with
    | true => simp
    | false =>
      simp only [Bool.false_eq_true, if_false]
      cases hlt : st.lastBeatTs with
      | none => simp
      | some tb => simp
  · simp [computePlcCommsState, advanceBeat, hnb, hts]
    omega
  · simp [computePlcCommsState, advanceBeat, hnb, hts]
    omega

/-- Witness for liveness_window_boundary: the heartbeat tag with an
unchanged value detects no beat, and the window boundaries evaluate as
stated at pollMs 250 and last beat at time 0. -/
theorem liveness_window_boundary_witness :
    ((⟨some 0, some (JSVal.num 0)⟩ : BeatState).lastBeatTs = some 0
      ∧ beatDetected "Heartbeat" ⟨some 0, some (JSVal.num 0)⟩ (JSVal.num 0) = false)
    ∧ ((∀ m : Int, ((computePlcCommsState m "Heartbeat" (JSVal.num 0) 100 true
          ⟨some 0, some (JSVal.num 0)⟩).2.ok = true
        ↔ ∃ tb, (computePlcCommsState m "Heartbeat" (JSVal.num 0) 100 true
            ⟨some 0, some (JSVal.num 0)⟩).1.lastBeatTs = some tb ∧ 100 - tb ≤ m))
      ∧ defaultHeartbeatTimeoutMs 250 = 6 * 250
      ∧ (computePlcCommsState (defaultHeartbeatTimeoutMs 250) "Heartbeat" (JSVal.num 0)
          (0 + defaultHeartbeatTimeoutMs 250 - 1) true ⟨some 0, some (JSVal.num 0)⟩).2.ok = true
      ∧ (computePlcCommsState (defaultHeartbeatTimeoutMs 250) "Heartbeat" (JSVal.num 0)
          (0 + defaultHeartbeatTimeoutMs 250 + 1) true
          ⟨some 0, some (JSVal.num 0)⟩).2.ok = false) :=
  ⟨⟨rfl, by decide⟩,
    liveness_window_boundary 250 0 100 "Heartbeat" (JSVal.num 0)
      ⟨some 0, some (JSVal.num 0)⟩ rfl (by decide)⟩

/-- C3 counterexample: a client connecting to the streaming endpoint is not
a poll tick, yet it advances the liveness state (the /hmi-data handler
calls computePlcCommsState with advanceState set, line 429): starting from
the state left by a tick that read handshake value 0, a connect that reads
value 1 changes both lastBeatTs and lastBeatVal, so the state is written a
second time between two consecutive ticks. -/
theorem connect_advances_liveness_between_ticks :
    stepBeat "TOHMI_CRC_Handshake" ⟨some 0, some (JSVal.num 0)⟩
        (EngineOp.clientConnectOp 100 (JSVal.num 1))
      ≠ (⟨some 0, some (JSVal.num 0)⟩ : BeatState)
    ∧ isPollTickOp (EngineOp.clientConnectOp 100 (JSVal.num 1)) = false := by
  decide

/-- C3 amended: the liveness state is written exactly by the two operations
that evaluate the detector with advanceState set, the poll tick and a
client connect on the streaming endpoint, each performing one advance; the
status and structure endpoints leave it untouched.  Hence the state is
advanced at most once per poll tick by the poll loop itself, plus once per
client connection occurring between ticks. -/
theorem liveness_state_writers (hbTag : String) (st : BeatState) (now : Int) (v : JSVal) :
    stepBeat hbTag st .statusQueryOp = st
    ∧ stepBeat hbTag st .structureQueryOp = st
    ∧ stepBeat hbTag st (.pollTickOp now v) = advanceBeat hbTag now v st
    ∧ stepBeat hbTag st (.clientConnectOp now v) = advanceBeat hbTag now v st :=
  ⟨rfl, rfl, rfl, rfl⟩

/-- A diff-loop iteration for one tag leaves the stored entry of every
other tag unchanged. -/
theorem diffStep_fst_ne (now : Int) (data : String → ReadRes) (acc : SentMap × List Update)
    (u t : String) (h : t ≠ u) : (diffStep now data acc u).1 t = acc.1 t := by
  dsimp only [diffStep]
  split
  · simp [setEntry, h]
  · split
    all_goals try split
    all_goals simp [setEntry, h]

/-- A diff-loop iteration appends to the batch exactly one update for its
own tag when the value changed, and nothing otherwise. -/
theorem diffStep_snd (now : Int) (data : String → ReadRes) (acc : SentMap × List Update)
    (u : String) :
    (diffStep now data acc u).2
      = acc.2 ++ (if valueChanged (acc.1 u) (data u) then
          [⟨u, (data u).value, (data u).ts.getD now⟩] else []) := by
  dsimp only [diffStep]
  split
  · simp
  · split
    all_goals try split
    all_goals simp

/-- A diff-loop iteration stores for its own tag exactly the entry
described by tickEntry. -/
theorem diffStep_fst_self (now : Int) (data : String → ReadRes) (acc : SentMap × List Update)
    (u : String) :
    (diffStep now data acc u).1 u = tickEntry now (acc.1 u) (data u) := by
  dsimp only [diffStep, tickEntry]
  split
  · simp [setEntry]
  · split
    all_goals try split
    all_goals simp [setEntry]

/-- Folding the diff loop over tags that do not contain t neither moves
t's stored entry nor adds an update for t. -/
theorem pollDiff_fold_nmem (now : Int) (data : String → ReadRes) (l : List String)
    (t : String) (acc : SentMap × List Update) (h : t ∉ l) :
    ((l.foldl (diffStep now data) acc).1 t = acc.1 t)
    ∧ ((l.foldl (diffStep now data) acc).2.any (fun u => u.tagId == t)
        = acc.2.any (fun u => u.tagId == t)) := by
  induction l generalizing acc with
  | nil => exact ⟨rfl, rfl⟩
  | cons u l ih =>
    have hne : t ≠ u := fun e => h (by simp [e])
    have hnl : t ∉ l := fun hm => h (List.mem_cons_of_mem _ hm)
    refine ⟨?_, ?_⟩
    · rw [List.foldl_cons, (ih _ hnl).1, diffStep_fst_ne now data acc u t hne]
    · rw [List.foldl_cons, (ih _ hnl).2, diffStep_snd]
      cases hc : valueChanged (acc.1 u) (data u) <;>
        simp [List.any_append, Ne.symm hne]

/-- Folding the diff loop over a duplicate-free tag list containing t
stores for t exactly tickEntry of its previous entry, and the batch gains
an update for t exactly when t's value changed. -/
theorem pollDiff_fold_mem (now : Int) (data : String → ReadRes) (l : List String)
    (t : String) (acc : SentMap × List Update) (hnd : l.Nodup) (ht : t ∈ l) :
    ((l.foldl (diffStep now data) acc).1 t = tickEntry now (acc.1 t) (data t))
    ∧ ((l.foldl (diffStep now data) acc).2.any (fun u => u.tagId == t)
        = (acc.2.any (fun u => u.tagId == t) || valueChanged (acc.1 t) (data t))) := by
  induction l generalizing acc with
  | nil => cases ht
  | cons u l ih =>
    rcases List.nodup_cons.mp hnd with ⟨hu, hndl⟩
    rcases List.mem_cons.mp ht with he | hm
    · subst he
      refine ⟨?_, ?_⟩
      · rw [List.foldl_cons, (pollDiff_fold_nmem now data l t _ hu).1, diffStep_fst_self]
      · rw [List.foldl_cons, (pollDiff_fold_nmem now data l t _ hu).2, diffStep_snd]
        cases hc : valueChanged (acc.1 t) (data t) <;> simp [List.any_append]
    · have hne : t ≠ u := by rintro rfl; exact hu hm
      have hbe : (u == t) = false := beq_eq_false_iff_ne.mpr (Ne.symm hne)
      refine ⟨?_, ?_⟩
      · rw [List.foldl_cons, (ih _ hndl hm).1, diffStep_fst_ne now data acc u t hne]
      · rw [List.foldl_cons, (ih _ hndl hm).2, diffStep_snd,
          diffStep_fst_ne now data acc u t hne]
        cases hc : valueChanged (acc.1 u) (data u) <;>
          simp [List.any_append, hbe]

/-- After the diff loop has run over the tag list, every processed tag
(and every tag whose stored value already agreed with the snapshot) has a
stored entry whose value equals the snapshot value. -/
theorem pollDiff_fold_value (now : Int) (data : String → ReadRes) (l : List String)
    (t : String) (acc : SentMap × List Update)
    (h : t ∈ l ∨ ∃ e, acc.1 t = some e ∧ e.value = (data t).value) :
    ∃ e, (l.foldl (diffStep now data) acc).1 t = some e ∧ e.value = (data t).value := by
  induction l generalizing acc with
  | nil =>
    rcases h with h | h
    · cases h
    · exact h
  | cons u l ih =>
    rw [List.foldl_cons]
    apply ih
    by_cases he : t = u
    · subst he
      right
      rw [diffStep_fst_self]
      by_cases hc : valueChanged (acc.1 t) (data t) = true
      · exact ⟨⟨(data t).value, (data t).ts.getD now⟩, by simp [tickEntry, hc], rfl⟩
      · rcases hp : acc.1 t with _ | p
        · exact absurd (by simp [valueChanged, hp]) hc
        · have hv : p.value = (data t).value := by
            by_contra hnev
            exact hc (by simp [valueChanged, hp, hnev])
          rcases hts : (data t).ts with _ | ts2
          · exact ⟨p, by simp [tickEntry, valueChanged, hp, hts, hv], hv⟩
          · by_cases hlt : p.ts < ts2
            · exact ⟨⟨p.value, ts2⟩, by simp [tickEntry, valueChanged, hp, hts, hlt, hv], hv⟩
            · exact ⟨p, by simp [tickEntry, valueChanged, hp, hts, hlt, hv], hv⟩
    · rcases h with h | h
      · rcases List.mem_cons.mp h with he2 | hm
        · exact absurd he2 he
        · exact Or.inl hm
      · right
        rw [diffStep_fst_ne now data acc u t he]
        exact h

/-- When every tag of the list already stores the snapshot value, the diff
loop adds no update at all. -/
theorem pollDiff_fold_noupd (now : Int) (data : String → ReadRes) (l : List String)
    (acc : SentMap × List Update)
    (h : ∀ t ∈ l, ∃ e, acc.1 t = some e ∧ e.value = (data t).value) :
    (l.foldl (diffStep now data) acc).2 = acc.2 := by
  induction l generalizing acc with
  | nil => rfl
  | cons u l ih =>
    rcases h u (by simp) with ⟨e, he, hv⟩
    have hcf : valueChanged (acc.1 u) (data u) = false := by
      simp [valueChanged, he, hv]
    have hsnd : (diffStep now data acc u).2 = acc.2 := by
      rw [diffStep_snd]; simp [hcf]
    have hinv : ∀ t ∈ l, ∃ e2, (diffStep now data acc u).1 t = some e2
        ∧ e2.value = (data t).value := by
      intro t htl
      by_cases he2 : t = u
      · subst he2
        rw [diffStep_fst_self]
        rcases hts : (data t).ts with _ | ts2
        · exact ⟨e, by simp [tickEntry, valueChanged, he, hts, hv], hv⟩
        · by_cases hlt : e.ts < ts2
          · exact ⟨⟨e.value, ts2⟩, by simp [tickEntry, valueChanged, he, hts, hlt, hv], hv⟩
          · exact ⟨e, by simp [tickEntry, valueChanged, he, hts, hlt, hv], hv⟩
      · rw [diffStep_fst_ne now data acc u t he2]
        exact h t (List.mem_cons_of_mem _ htl)
    rw [List.foldl_cons, ih _ hinv, hsnd]

/-- C1: diff correctness of the poll tick.  For a duplicate-free tag list
(the registry's list is deduplicated by construction) and any tag t of it:
t appears in the tick's patch batch iff its snapshot value differs by
strict inequality from the stored last-sent value (a missing entry counts
as changed); when the value is unchanged but the source timestamp is
strictly newer, only the stored timestamp advances and no update for t is
batched; and a second tick over an identical snapshot produces an empty
batch. -/
theorem diff_patch_iff (now now2 : Int) (data : String → ReadRes) (ls : SentMap)
    (tags : List String) (t : String) (hnd : tags.Nodup) (ht : t ∈ tags) :
    ((∃ u ∈ (pollDiff now data ls tags).2, u.tagId = t)
        ↔ valueChanged (ls t) (data t) = true)
    ∧ (∀ p ts2, ls t = some p → p.value = (data t).value → (data t).ts = some ts2 →
        p.ts < ts2 →
        (pollDiff now data ls tags).1 t = some ⟨p.value, ts2⟩
        ∧ ¬ ∃ u ∈ (pollDiff now data ls tags).2, u.tagId = t)
    ∧ (pollDiff now2 data (pollDiff now data ls tags).1 tags).2 = [] := by
  have hmem := pollDiff_fold_mem now data tags t (ls, []) hnd ht
  have hany : (pollDiff now data ls tags).2.any (fun u => u.tagId == t)
      = valueChanged (ls t) (data t) := by
    rw [pollDiff, hmem.2]; simp
  have hiff : (∃ u ∈ (pollDiff now data ls tags).2, u.tagId = t)
      ↔ valueChanged (ls t) (data t) = true := by
    rw [← hany, List.any_eq_true]
    constructor
    · rintro ⟨u, hu, he⟩; exact ⟨u, hu, by simp [he]⟩
    · rintro ⟨u, hu, he⟩; exact ⟨u, hu, by simpa using he⟩
  refine ⟨hiff, ?_, ?_⟩
  · intro p ts2 hp hv hts hlt
    have hcf : valueChanged (ls t) (data t) = false := by
      simp [valueChanged, hp, hv]
    refine ⟨?_, ?_⟩
    · rw [pollDiff, hmem.1]
      simp [tickEntry, valueChanged, hp, hts, hlt, hv]
    · rw [hiff, hcf]
      simp
  · apply pollDiff_fold_noupd
    intro u hu
    exact pollDiff_fold_value now data tags u (ls, []) (Or.inl hu)

/-- Witness for diff_patch_iff on a one-tag registry whose stored state is
empty: the tag is batched on the first tick and the repeated snapshot
yields no second update. -/
theorem diff_patch_iff_witness :
    ((["TOHMI_A"] : List String).Nodup ∧ "TOHMI_A" ∈ (["TOHMI_A"] : List String))
    ∧ (((∃ u ∈ (pollDiff 5 (fun _ => ⟨JSVal.num 1, none⟩) (fun _ => none) ["TOHMI_A"]).2,
          u.tagId = "TOHMI_A")
        ↔ valueChanged ((fun _ => (none : Option SentEntry)) "TOHMI_A")
            ((fun _ => (⟨JSVal.num 1, none⟩ : ReadRes)) "TOHMI_A") = true)
      ∧ (∀ p ts2, (fun _ => (none : Option SentEntry)) "TOHMI_A" = some p →
          p.value = ((fun _ => (⟨JSVal.num 1, none⟩ : ReadRes)) "TOHMI_A").value →
          ((fun _ => (⟨JSVal.num 1, none⟩ : ReadRes)) "TOHMI_A").ts = some ts2 →
          p.ts < ts2 →
          (pollDiff 5 (fun _ => ⟨JSVal.num 1, none⟩) (fun _ => none) ["TOHMI_A"]).1 "TOHMI_A"
            = some ⟨p.value, ts2⟩
          ∧ ¬ ∃ u ∈ (pollDiff 5 (fun _ => ⟨JSVal.num 1, none⟩) (fun _ => none) ["TOHMI_A"]).2,
              u.tagId = "TOHMI_A")
      ∧ (pollDiff 6 (fun _ => ⟨JSVal.num 1, none⟩)
          (pollDiff 5 (fun _ => ⟨JSVal.num 1, none⟩) (fun _ => none) ["TOHMI_A"]).1
          ["TOHMI_A"]).2 = []) :=
  ⟨⟨by decide, by decide⟩,
    diff_patch_iff 5 6 (fun _ => ⟨JSVal.num 1, none⟩) (fun _ => none) ["TOHMI_A"] "TOHMI_A"
      (by decide) (by decide)⟩

/-- The tick broadcast loop delivers to exactly the longest prefix of
clients whose writes succeed, and it ends by throwing iff some client
fails. -/
theorem tickBroadcast_delivers (cs : List SClient) :
    (tickBroadcast cs).1 = (cs.takeWhile (fun x => !x.failing)).map (fun x => x.id)
    ∧ (tickBroadcast cs).2 = cs.any (fun x => x.failing) := by
  induction cs with
  | nil => exact ⟨rfl, rfl⟩
  | cons c rest ih =>
    by_cases hf : c.failing = true
    · simp [tickBroadcast, hf]
    · simp only [Bool.not_eq_true] at hf
      simp [tickBroadcast, hf, ih.1, ih.2]

/-- C2 counterexample: with client 1 failing and client 2 healthy, the
patch/plc-comms broadcast of a tick delivers to nobody (the healthy client
2 is skipped because the loop aborts on client 1's write error), and the
failing client is still registered afterwards — so a write failure both
prevents delivery to other clients and does not unregister the failer. -/
theorem broadcast_not_isolated_cex :
    (tickBroadcast [⟨1, true⟩, ⟨2, false⟩]).1 = []
    ∧ (tickBroadcast [⟨1, true⟩, ⟨2, false⟩]).2 = true
    ∧ clientsAfterBroadcast [⟨1, true⟩, ⟨2, false⟩] = [⟨1, true⟩, ⟨2, false⟩] := by
  decide

/-- C2 amended: only the keepalive loop isolates write failures per client
(every client whose write succeeds receives the keepalive regardless of
other clients failing); the patch and plc-comms broadcasts deliver only to
the clients preceding the first failing one; and no broadcast removes any
client — the set is unchanged, removal happening only in the connection
close handler. -/
theorem keepalive_isolation_no_removal (cs : List SClient) (c : SClient)
    (h1 : c ∈ cs) (h2 : c.failing = false) :
    c.id ∈ keepaliveRound cs
    ∧ (tickBroadcast cs).1 = (cs.takeWhile (fun x => !x.failing)).map (fun x => x.id)
    ∧ (tickBroadcast cs).2 = cs.any (fun x => x.failing)
    ∧ clientsAfterBroadcast cs = cs := by
  refine ⟨?_, (tickBroadcast_delivers cs).1, (tickBroadcast_delivers cs).2, rfl⟩
  exact List.mem_map.mpr ⟨c, List.mem_filter.mpr ⟨h1, by simp [h2]⟩, rfl⟩

/-- Witness for keepalive_isolation_no_removal: a healthy client placed
after a failing one still receives the keepalive. -/
theorem keepalive_isolation_no_removal_witness :
    ((⟨3, false⟩ : SClient) ∈ [(⟨1, false⟩ : SClient), ⟨2, true⟩, ⟨3, false⟩]
      ∧ (⟨3, false⟩ : SClient).failing = false)
    ∧ ((⟨3, false⟩ : SClient).id ∈ keepaliveRound [⟨1, false⟩, ⟨2, true⟩, ⟨3, false⟩]
      ∧ (tickBroadcast [⟨1, false⟩, ⟨2, true⟩, ⟨3, false⟩]).1
        = (([⟨1, false⟩, ⟨2, true⟩, ⟨3, false⟩] : List SClient).takeWhile
            (fun x => !x.failing)).map (fun x => x.id)
      ∧ (tickBroadcast [⟨1, false⟩, ⟨2, true⟩, ⟨3, false⟩]).2
        = ([⟨1, false⟩, ⟨2, true⟩, ⟨3, false⟩] : List SClient).any (fun x => x.failing)
      ∧ clientsAfterBroadcast [⟨1, false⟩, ⟨2, true⟩, ⟨3, false⟩]
        = [⟨1, false⟩, ⟨2, true⟩, ⟨3, false⟩]) :=
  ⟨⟨by decide, by decide⟩,
    keepalive_isolation_no_removal [⟨1, false⟩, ⟨2, true⟩, ⟨3, false⟩] ⟨3, false⟩
      (by decide) (by decide)⟩

/-- C7 counterexample: a client connecting while the registry is empty
receives hello and then directly the comms event — no patch event at all
is written (the if at line 425 skips the empty initial snapshot), so the
claimed hello/patch/comms sequence does not hold for every client. -/
theorem connect_empty_registry_no_patch_cex :
    (connectEvents 0 1500 "TOHMI_CRC_Handshake" (fun _ => ⟨JSVal.null, none⟩) []
        ⟨none, none⟩).1
      = [CEvent.hello 0, CEvent.commsEv ⟨true, 0, "TOHMI_CRC_Handshake", JSVal.null, 1500⟩]
    ∧ ((connectEvents 0 1500 "TOHMI_CRC_Handshake" (fun _ => ⟨JSVal.null, none⟩) []
        ⟨none, none⟩).1.any isPatchEvent) = false := by
  decide

/-- C7 amended: when the registry holds at least one tag, a connecting
client's stream starts, before any later tick event, with the hello event,
then one patch event carrying an entry for every registry tag (in registry
order, not only changed ones), then a comms event carrying the current
liveness evaluation; with an empty registry the patch event is omitted. -/
theorem connect_event_order (now timeoutMs : Int) (hbTag : String)
    (data : String → ReadRes) (tags : List String) (st : BeatState)
    (later : List CEvent) (hne : tags ≠ []) :
    (clientStream now timeoutMs hbTag data tags st later).take 3
      = [CEvent.hello now,
         CEvent.patch (tags.map (fun t => ⟨t, (data t).value, (data t).ts.getD now⟩)),
         CEvent.commsEv (computePlcCommsState timeoutMs hbTag ((data hbTag).value)
            now true st).2]
    ∧ (tags.map (fun t => (⟨t, (data t).value, (data t).ts.getD now⟩ : Update))).map
        (fun u => u.tagId) = tags := by
  have hinit : (tags.map (fun t =>
      (⟨t, (data t).value, (data t).ts.getD now⟩ : Update))).isEmpty = false := by
    cases tags with
    | nil => exact absurd rfl hne
    | cons a l => simp
  refine ⟨?_, ?_⟩
  · simp [clientStream, connectEvents, hinit]
  · simp [Function.comp_def]

/-- Witness for connect_event_order on a one-tag registry. -/
theorem connect_event_order_witness :
    ((["TOHMI_A"] : List String) ≠ [])
    ∧ ((clientStream 0 1500 "Heartbeat" (fun _ => ⟨JSVal.num 2, some 7⟩) ["TOHMI_A"]
          ⟨none, none⟩ []).take 3
        = [CEvent.hello 0,
           CEvent.patch ((["TOHMI_A"] : List String).map (fun t =>
              ⟨t, ((fun _ => (⟨JSVal.num 2, some 7⟩ : ReadRes)) t).value,
                ((fun _ => (⟨JSVal.num 2, some 7⟩ : ReadRes)) t).ts.getD 0⟩)),
           CEvent.commsEv (computePlcCommsState 1500 "Heartbeat"
              ((fun _ => (⟨JSVal.num 2, some 7⟩ : ReadRes)) "Heartbeat").value 0 true
              ⟨none, none⟩).2]
      ∧ ((["TOHMI_A"] : List String).map (fun t =>
            (⟨t, ((fun _ => (⟨JSVal.num 2, some 7⟩ : ReadRes)) t).value,
              ((fun _ => (⟨JSVal.num 2, some 7⟩ : ReadRes)) t).ts.getD 0⟩ : Update))).map
          (fun u => u.tagId) = ["TOHMI_A"]) :=
  ⟨by decide,
    connect_event_order 0 1500 "Heartbeat" (fun _ => ⟨JSVal.num 2, some 7⟩) ["TOHMI_A"]
      ⟨none, none⟩ [] (by decide)⟩

/-- C8 counterexample: the upstream query is called twice within one tick;
if the first call succeeds (returning value 7 for the single registry tag)
and the second call throws, the tick has already stored the new value in
lastSent and broadcast a patch event before the exception, so a tick in
which the upstream query throws is not a no-op. -/
theorem tick_midway_throw_cex :
    (runTick 1500 "Heartbeat" 0 ["TOHMI_A"] 1 (some (fun _ => ⟨JSVal.num 7, none⟩)) none
        ⟨fun _ => none, ⟨none, none⟩, none⟩).2
      = [CEvent.patch [⟨"TOHMI_A", JSVal.num 7, 0⟩]]
    ∧ (runTick 1500 "Heartbeat" 0 ["TOHMI_A"] 1 (some (fun _ => ⟨JSVal.num 7, none⟩)) none
        ⟨fun _ => none, ⟨none, none⟩, none⟩).1.lastSent "TOHMI_A"
      = some ⟨JSVal.num 7, 0⟩ := by
  constructor <;> rfl

/-- C8 amended: a throw on the first upstream call makes the tick a
complete no-op (state unchanged, no events); a throw on the second call
leaves the liveness state and the announced comms state unchanged and
emits no comms event (only the diff phase's patch effects, already
performed, stand); and a failing tick never stops the loop — the remaining
ticks run exactly as if the failing tick had not existed. -/
theorem tick_failure_phases (timeoutMs : Int) (hbTag : String) (now : Int)
    (tags : List String) (n : Nat) (q2 : Option (String → ReadRes))
    (st : EngineState) (data : String → ReadRes)
    (rest : List (Int × Option (String → ReadRes) × Option (String → ReadRes))) :
    runTick timeoutMs hbTag now tags n none q2 st = (st, [])
    ∧ (runTick timeoutMs hbTag now tags n (some data) none st).1.beat = st.beat
    ∧ (runTick timeoutMs hbTag now tags n (some data) none st).1.lastCommsOk = st.lastCommsOk
    ∧ ((runTick timeoutMs hbTag now tags n (some data) none st).2.all isPatchEvent) = true
    ∧ runLoop timeoutMs hbTag tags n st ((now, none, q2) :: rest)
      = runLoop timeoutMs hbTag tags n st rest := by
  refine ⟨rfl, rfl, rfl, ?_, ?_⟩
  · simp only [runTick]
    split
    · rfl
    · simp [isPatchEvent]
  · simp [runLoop, runTick]

/-- A hash-free character list passes through applyCapturesGo unchanged. -/
theorem applyCapturesGo_no_hash (cs : List Char) (caps : List String) (i : Nat)
    (h : '#' ∉ cs) : applyCapturesGo cs caps i = cs := by
  induction cs generalizing i with
  | nil => rfl
  | cons c cs ih =>
    have hc : ¬(c = '#') := fun e => h (by simp [e])
    simp [applyCapturesGo, hc, ih (i := i) (fun hm => h (List.mem_cons_of_mem _ hm))]

/-- A string without placeholders is left untouched by applyCaptures. -/
theorem applyCaptures_no_hash (s : String) (caps : List String) (h : '#' ∉ s.data) :
    applyCaptures s caps = s := by
  unfold applyCaptures
  split
  · rfl
  · rw [applyCapturesGo_no_hash _ _ _ h]

/-- The empty capture list hits the guard of line 75: the string is
returned with its placeholders intact. -/
theorem applyCaptures_nil (s : String) : applyCaptures s [] = s := by
  simp [applyCaptures]

/-- Once the running index passes the capture count, every further hash is
replaced by the empty string, i.e. dropped. -/
theorem applyCapturesGo_out_of_range (cs : List Char) (caps : List String) (i : Nat)
    (h : caps.length ≤ i) :
    applyCapturesGo cs caps i = cs.filter (fun c => c != '#') := by
  induction cs generalizing i with
  | nil => rfl
  | cons c cs ih =>
    by_cases hc : c = '#'
    · subst hc
      have hd : caps[i]? = none := List.getElem?_eq_none h
      simp [applyCapturesGo, List.getD, hd, ih _ (Nat.le_succ_of_le h)]
    · simp [applyCapturesGo, hc, ih _ h]

/-- The hash occurrence after a hash-free prefix consumes exactly the
capture at the running index. -/
theorem applyCapturesGo_hash_consume (pre rest : List Char) (caps : List String) (i : Nat)
    (h : '#' ∉ pre) :
    applyCapturesGo (pre ++ '#' :: rest) caps i
      = pre ++ (caps.getD i "").data ++ applyCapturesGo rest caps (i + 1) := by
  induction pre with
  | nil => simp [applyCapturesGo]
  | cons c pre ih =>
    have hc : ¬(c = '#') := fun e => h (by simp [e])
    simp [applyCapturesGo, hc, ih (fun hm => h (List.mem_cons_of_mem _ hm))]

/-- Property write then read at the same key yields the written value,
when the key already occurs. -/
theorem objGet_mapSet_self (o : Obj) (k : String) (v : JTree)
    (ha : o.any (fun p => p.1 == k) = true) :
    objGet (o.map (fun p => if p.1 == k then (k, v) else p)) k = some v := by
  induction o with
  | nil => simp at ha
  | cons p o ih =>
    rw [List.any_cons] at ha
    by_cases hk : (p.1 == k) = true
    · simp [objGet, hk]
    · have hkf : (p.1 == k) = false := by simpa using hk
      rw [hkf, Bool.false_or] at ha
      simp only [List.map_cons, if_neg hk, objGet, hkf, Bool.false_eq_true, if_false]
      exact ih ha

/-- Appending a key to an object where it was absent, then reading it,
yields the appended value. -/
theorem objGet_append_self (o : Obj) (k : String) (v : JTree)
    (ha : o.any (fun p => p.1 == k) = false) :
    objGet (o ++ [(k, v)]) k = some v := by
  induction o with
  | nil => simp [objGet]
  | cons p o ih =>
    rw [List.any_cons] at ha
    rcases Bool.or_eq_false_iff.mp ha with ⟨h1, h2⟩
    rw [List.cons_append]
    simp only [objGet, h1, Bool.false_eq_true, if_false]
    exact ih h2

/-- objSet then objGet at the written key. -/
theorem objGet_objSet_self (o : Obj) (k : String) (v : JTree) :
    objGet (objSet o k v) k = some v := by
  unfold objSet
  by_cases ha : o.any (fun p => p.1 == k) = true
  · rw [if_pos ha]
    exact objGet_mapSet_self o k v ha
  · rw [if_neg ha]
    exact objGet_append_self o k v (Bool.eq_false_iff.mpr ha)

/-- Overwriting one key does not change reads of a different key (the
replace branch). -/
theorem objGet_mapSet_ne (o : Obj) (k k2 : String) (v : JTree)
    (hkk : (k == k2) = false) :
    objGet (o.map (fun p => if p.1 == k then (k, v) else p)) k2 = objGet o k2 := by
  induction o with
  | nil => rfl
  | cons p o ih =>
    rw [List.map_cons]
    by_cases hk : (p.1 == k) = true
    · have hp2 : (p.1 == k2) = false := by
        have he : p.1 = k := by simpa using hk
        rw [he]; exact hkk
      rw [if_pos hk]
      simp only [objGet, hkk, hp2, Bool.false_eq_true, if_false]
      exact ih
    · have hkp : ¬(p.1 = k) := by simpa using hk
      by_cases hp2 : (p.1 == k2) = true
      · simp [objGet, hkp, hp2]
      · have hp2f : (p.1 == k2) = false := by simpa using hp2
        simp only [if_neg hk, objGet, hp2f, Bool.false_eq_true, if_false]
        exact ih

/-- Appending one key does not change reads of a different key. -/
theorem objGet_append_ne (o : Obj) (k k2 : String) (v : JTree)
    (hkk : (k == k2) = false) :
    objGet (o ++ [(k, v)]) k2 = objGet o k2 := by
  induction o with
  | nil => simp [objGet, hkk]
  | cons p o ih =>
    rw [List.cons_append]
    by_cases hp2 : (p.1 == k2) = true
    · simp [objGet, hp2]
    · have hp2f : (p.1 == k2) = false := by simpa using hp2
      simp only [objGet, hp2f, Bool.false_eq_true, if_false]
      exact ih

/-- objSet then objGet at a different key. -/
theorem objGet_objSet_ne (o : Obj) (k k2 : String) (v : JTree) (h : k2 ≠ k) :
    objGet (objSet o k v) k2 = objGet o k2 := by
  have hkk : (k == k2) = false := beq_eq_false_iff_ne.mpr (Ne.symm h)
  unfold objSet
  by_cases ha : o.any (fun p => p.1 == k) = true
  · rw [if_pos ha]
    exact objGet_mapSet_ne o k k2 v hkk
  · rw [if_neg ha]
    exact objGet_append_ne o k k2 v hkk

/-- A template string matched against itself captures nothing: it matches
(with an empty capture list) exactly when it contains no placeholder. -/
theorem tplMatch_self (l : List Char) :
    tplMatch l l = if '#' ∈ l then none else some [] := by
  induction l with
  | nil => rfl
  | cons c l ih =>
    by_cases hc : c = '#'
    · subst hc
      simp [tplMatch, greedySplits]
    · have hc2 : ¬('#' = c) := fun e => hc e.symm
      simp [tplMatch, hc, hc2, ih]

/-- Materializing the generic fallback record for its own tag returns it
unchanged: matching the tag against itself yields no usable captures, and
applyCaptures with an empty capture list is the identity. -/
theorem materializeTemplate_fallback (tagId : String) :
    materializeTemplate (fallbackMeta tagId) tagId = fallbackMeta tagId := by
  have hcaps : (capsOf (fallbackMeta tagId) tagId).getD [] = ([] : List String) := by
    show (tplMatch tagId.data tagId.data).getD [] = []
    rw [tplMatch_self]
    split <;> rfl
  have h1 : materializeTemplate (fallbackMeta tagId) tagId
      = objSet (objSet (fallbackMeta tagId) "tagId" (.str tagId)) "label"
          (.str (applyCaptures tagId ((capsOf (fallbackMeta tagId) tagId).getD []))) := rfl
  rw [h1, hcaps, applyCaptures_nil]
  rfl

/-- A metadata lookup that succeeds keeps succeeding after appending more
entries. -/
theorem lookupMeta_append_of_some (l l2 : List (String × Obj)) (t : String) (m : Obj)
    (h : lookupMeta l t = some m) : lookupMeta (l ++ l2) t = some m := by
  induction l with
  | nil => cases h
  | cons p l ih =>
    rw [List.cons_append]
    by_cases hp : (p.1 == t) = true
    · simp only [lookupMeta, hp, if_true] at h ⊢
      exact h
    · have hpf : (p.1 == t) = false := Bool.eq_false_iff.mpr hp
      simp only [lookupMeta, hpf, Bool.false_eq_true, if_false] at h ⊢
      exact ih h

/-- Appending an entry for an absent key makes its lookup succeed. -/
theorem lookupMeta_append_self (l : List (String × Obj)) (t : String) (m : Obj)
    (h : lookupMeta l t = none) : lookupMeta (l ++ [(t, m)]) t = some m := by
  induction l with
  | nil => simp [lookupMeta]
  | cons p l ih =>
    rw [List.cons_append]
    by_cases hp : (p.1 == t) = true
    · simp only [lookupMeta, hp, if_true] at h
      cases h
    · have hpf : (p.1 == t) = false := Bool.eq_false_iff.mpr hp
      simp only [lookupMeta, hpf, Bool.false_eq_true, if_false] at h ⊢
      exact ih h

/-- Appending an entry for a different key keeps an absent key absent. -/
theorem lookupMeta_append_ne (l : List (String × Obj)) (k t : String) (m : Obj)
    (hne : (k == t) = false) (h : lookupMeta l t = none) :
    lookupMeta (l ++ [(k, m)]) t = none := by
  induction l with
  | nil => simp [lookupMeta, hne]
  | cons p l ih =>
    rw [List.cons_append]
    by_cases hp : (p.1 == t) = true
    · simp only [lookupMeta, hp, if_true] at h
      cases h
    · have hpf : (p.1 == t) = false := Bool.eq_false_iff.mpr hp
      simp only [lookupMeta, hpf, Bool.false_eq_true, if_false] at h ⊢
      exact ih h

/-- One buildRegistry loop iteration either leaves the metadata map alone
or, when its tag is absent, appends exactly one entry for that tag. -/
theorem regStep_metaByTag (widgetsMap : List (String × Obj)) (acc : Registry)
    (e : String × Option JTree) :
    (regStep widgetsMap acc e).metaByTag = acc.metaByTag
    ∨ (lookupMeta acc.metaByTag e.1 = none
       ∧ ∃ mm, (regStep widgetsMap acc e).metaByTag = acc.metaByTag ++ [(e.1, mm)]) := by
  by_cases hb : (lookupMeta acc.metaByTag e.1).isSome = true
  · left
    simp only [regStep]
    rw [if_pos hb]
  · right
    refine ⟨Option.not_isSome_iff_eq_none.mp (by simpa using hb), ?_⟩
    simp only [regStep]
    rw [if_neg hb]
    exact ⟨_, rfl⟩

/-- Once the registry map binds a tag, later loop iterations never change
that binding. -/
theorem regFold_persist (widgetsMap : List (String × Obj))
    (entries : List (String × Option JTree)) (acc : Registry) (t : String) (m : Obj)
    (h : lookupMeta acc.metaByTag t = some m) :
    lookupMeta ((entries.foldl (regStep widgetsMap) acc).metaByTag) t = some m := by
  induction entries generalizing acc with
  | nil => exact h
  | cons e rest ih =>
    rw [List.foldl_cons]
    apply ih
    rcases regStep_metaByTag widgetsMap acc e with hcase | ⟨_, mm, heq⟩
    · rw [hcase]; exact h
    · rw [heq]
      exact lookupMeta_append_of_some _ _ _ _ h

/-- Running the buildRegistry loop over entries that contain tag t without
an override, when no template of the table matches t and t is not yet
bound, binds t to exactly the generic fallback record. -/
theorem regFold_fallback (widgetsMap : List (String × Obj))
    (entries : List (String × Option JTree)) (acc : Registry) (t : String)
    (hmem : (t, (none : Option JTree)) ∈ entries)
    (hov : ∀ ov, (t, ov) ∈ entries → ov = none)
    (hnm : ∀ p ∈ widgetsMap, tplMatch p.1.data t.data = none)
    (hnot : lookupMeta acc.metaByTag t = none) :
    lookupMeta ((entries.foldl (regStep widgetsMap) acc).metaByTag) t
      = some (fallbackMeta t) := by
  induction entries generalizing acc with
  | nil => cases hmem
  | cons e rest ih =>
    rw [List.foldl_cons]
    by_cases he : e.1 = t
    · have hove : e.2 = none := by
        apply hov e.2
        have he2 : e = (t, e.2) := by rw [← he]
        rw [← he2]
        exact List.mem_cons_self _ _
      have hch : widgetsMap.find? (fun p => (tplMatch p.1.data e.1.data).isSome) = none := by
        rw [List.find?_eq_none]
        intro p hp
        rw [he, hnm p hp]
        simp
      have hb : (lookupMeta acc.metaByTag e.1).isSome = false := by
        rw [he, hnot]
        rfl
      have hstep : regStep widgetsMap acc e
          = ⟨acc.tags ++ [e.1], acc.metaByTag ++ [(e.1, fallbackMeta e.1)]⟩ := by
        simp only [regStep, hch, hove, materializeTemplate_fallback, hb,
          Bool.false_eq_true, if_false]
      rw [hstep]
      subst he
      exact regFold_persist widgetsMap rest _ e.1 (fallbackMeta e.1)
        (lookupMeta_append_self _ _ _ hnot)
    · have hmem2 : (t, (none : Option JTree)) ∈ rest := by
        rcases List.mem_cons.mp hmem with h | h
        · exact absurd (congrArg Prod.fst h).symm he
        · exact h
      have hov2 : ∀ ov, (t, ov) ∈ rest → ov = none :=
        fun ov h2 => hov ov (List.mem_cons_of_mem _ h2)
      refine ih _ hmem2 hov2 ?_
      rcases regStep_metaByTag widgetsMap acc e with hcase | ⟨_, mm, heq⟩
      · rw [hcase]; exact hnot
      · rw [heq]
        exact lookupMeta_append_ne _ _ _ _ (beq_eq_false_iff_ne.mpr he) hnot

/-- C9: every collected tag with no matching template (and referenced
without an override) is bound in the registry to the generic fallback
record, whose tagId and label are the tag's own name, widget raw and
valueType string. -/
theorem fallback_metadata_binding (layout : JTree) (widgetsMap : List (String × Obj))
    (tagId : String)
    (hmem : (tagId, (none : Option JTree)) ∈ collectConcreteTags layout)
    (hov : ∀ ov, (tagId, ov) ∈ collectConcreteTags layout → ov = none)
    (hnm : ∀ p ∈ widgetsMap, tplMatch p.1.data tagId.data = none) :
    lookupMeta (buildRegistry layout widgetsMap).metaByTag tagId
      = some (fallbackMeta tagId) :=
  regFold_fallback widgetsMap (collectConcreteTags layout) ⟨[], []⟩ tagId hmem hov hnm rfl

/-- Witness for fallback_metadata_binding: the layout referencing only
TOHMI_Feedpoint2_currentJob against an empty template table binds that tag
to the fallback record. -/
theorem fallback_metadata_binding_witness :
    ((("TOHMI_Feedpoint2_currentJob", (none : Option JTree))
        ∈ collectConcreteTags exampleLayout)
      ∧ (∀ ov, ("TOHMI_Feedpoint2_currentJob", ov) ∈ collectConcreteTags exampleLayout
          → ov = none)
      ∧ (∀ p ∈ ([] : List (String × Obj)),
          tplMatch p.1.data "TOHMI_Feedpoint2_currentJob".data = none))
    ∧ lookupMeta (buildRegistry exampleLayout []).metaByTag "TOHMI_Feedpoint2_currentJob"
      = some (fallbackMeta "TOHMI_Feedpoint2_currentJob") := by
  have hcol : collectConcreteTags exampleLayout
      = [("TOHMI_Feedpoint2_currentJob", none)] := rfl
  have hmem : ("TOHMI_Feedpoint2_currentJob", (none : Option JTree))
      ∈ collectConcreteTags exampleLayout := by
    rw [hcol]
    exact List.mem_singleton.mpr rfl
  have hov : ∀ ov, ("TOHMI_Feedpoint2_currentJob", ov) ∈ collectConcreteTags exampleLayout
      → ov = none := by
    intro ov h
    rw [hcol] at h
    exact congrArg Prod.snd (List.mem_singleton.mp h)
  have hnm : ∀ p ∈ ([] : List (String × Obj)),
      tplMatch p.1.data "TOHMI_Feedpoint2_currentJob".data = none :=
    fun p hp => absurd hp (List.not_mem_nil p)
  exact ⟨⟨hmem, hov, hnm⟩,
    fallback_metadata_binding exampleLayout [] "TOHMI_Feedpoint2_currentJob" hmem hov hnm⟩

/-- C4 counterexample: for the template with tagId A#B#, label L# and
description D#, the concrete tag A1B2 captures the digits 1 and 2; the
label consumes the first capture (L1), but the description does not
receive the second capture as one shared left-to-right sequence would
dictate (D2) — the capture index restarts at the first capture for each
field, producing D1. -/
theorem capture_restart_cex :
    capsOf [("tagId", .str "A#B#"), ("label", .str "L#"), ("description", .str "D#")] "A1B2"
      = some ["1", "2"]
    ∧ objGet (materializeTemplate
        [("tagId", .str "A#B#"), ("label", .str "L#"), ("description", .str "D#")] "A1B2")
        "label" = some (.str "L1")
    ∧ objGet (materializeTemplate
        [("tagId", .str "A#B#"), ("label", .str "L#"), ("description", .str "D#")] "A1B2")
        "description" = some (.str "D1")
    ∧ ¬(objGet (materializeTemplate
        [("tagId", .str "A#B#"), ("label", .str "L#"), ("description", .str "D#")] "A1B2")
        "description" = some (.str "D2")) := by
  refine ⟨rfl, rfl, rfl, ?_⟩
  intro h
  rw [show objGet (materializeTemplate
      [("tagId", .str "A#B#"), ("label", .str "L#"), ("description", .str "D#")] "A1B2")
      "description" = some (JTree.str "D1") from rfl] at h
  exact absurd (JTree.str.inj (Option.some.inj h)) (by decide)

/-- C4 amended: label and description are each passed through applyCaptures
with the full capture list, the index restarting at the first capture for
each field (captures are reused across fields, not shared); a field
without placeholders is unchanged; with a non-empty capture list every
placeholder occurrence past the captures is replaced by the empty string;
and each placeholder occurrence consumes the capture at its occurrence
index within its field.  An empty capture list leaves a field entirely
unchanged (guard of line 75). -/
theorem materialize_capture_semantics (tpl : Obj) (concrete lbl dsc : String)
    (hl : objGet tpl "label" = some (.str lbl))
    (hd : objGet tpl "description" = some (.str dsc)) :
    objGet (materializeTemplate tpl concrete) "label"
      = some (.str (applyCaptures lbl ((capsOf tpl concrete).getD [])))
    ∧ objGet (materializeTemplate tpl concrete) "description"
      = some (.str (applyCaptures dsc ((capsOf tpl concrete).getD [])))
    ∧ (∀ s : String, ∀ caps : List String, '#' ∉ s.data → applyCaptures s caps = s)
    ∧ (∀ cs : List Char, ∀ caps : List String, ∀ i : Nat, caps.length ≤ i →
        applyCapturesGo cs caps i = cs.filter (fun c => c != '#'))
    ∧ (∀ pre rest : List Char, ∀ caps : List String, ∀ i : Nat, '#' ∉ pre →
        applyCapturesGo (pre ++ '#' :: rest) caps i
          = pre ++ (caps.getD i "").data ++ applyCapturesGo rest caps (i + 1)) := by
  have hl1 : objGet (objSet tpl "tagId" (JTree.str concrete)) "label"
      = some (.str lbl) := by
    rw [objGet_objSet_ne tpl "tagId" "label" _ (by decide)]
    exact hl
  have hd1 : objGet (objSet tpl "tagId" (JTree.str concrete)) "description"
      = some (.str dsc) := by
    rw [objGet_objSet_ne tpl "tagId" "description" _ (by decide)]
    exact hd
  have hd2 : objGet (objSet (objSet tpl "tagId" (JTree.str concrete)) "label"
      (.str (applyCaptures lbl ((capsOf tpl concrete).getD [])))) "description"
      = some (.str dsc) := by
    rw [objGet_objSet_ne _ "label" "description" _ (by decide)]
    exact hd1
  refine ⟨?_, ?_, fun s caps h => applyCaptures_no_hash s caps h,
    fun cs caps i h => applyCapturesGo_out_of_range cs caps i h,
    fun pre rest caps i h => applyCapturesGo_hash_consume pre rest caps i h⟩
  · simp only [materializeTemplate, hl1, hd2]
    rw [objGet_objSet_ne _ "description" "label" _ (by decide), objGet_objSet_self]
  · simp only [materializeTemplate, hl1, hd2]
    rw [objGet_objSet_self]

/-- Witness for materialize_capture_semantics at the two-capture template
of the counterexample. -/
theorem materialize_capture_semantics_witness :
    (objGet [("tagId", JTree.str "A#B#"), ("label", JTree.str "L#"),
        ("description", JTree.str "D#")] "label" = some (.str "L#")
      ∧ objGet [("tagId", JTree.str "A#B#"), ("label", JTree.str "L#"),
        ("description", JTree.str "D#")] "description" = some (.str "D#"))
    ∧ (objGet (materializeTemplate [("tagId", JTree.str "A#B#"), ("label", JTree.str "L#"),
          ("description", JTree.str "D#")] "A1B2") "label"
        = some (.str (applyCaptures "L#"
            ((capsOf [("tagId", JTree.str "A#B#"), ("label", JTree.str "L#"),
              ("description", JTree.str "D#")] "A1B2").getD [])))
      ∧ objGet (materializeTemplate [("tagId", JTree.str "A#B#"), ("label", JTree.str "L#"),
          ("description", JTree.str "D#")] "A1B2") "description"
        = some (.str (applyCaptures "D#"
            ((capsOf [("tagId", JTree.str "A#B#"), ("label", JTree.str "L#"),
              ("description", JTree.str "D#")] "A1B2").getD [])))
      ∧ (∀ s : String, ∀ caps : List String, '#' ∉ s.data → applyCaptures s caps = s)
      ∧ (∀ cs : List Char, ∀ caps : List String, ∀ i : Nat, caps.length ≤ i →
          applyCapturesGo cs caps i = cs.filter (fun c => c != '#'))
      ∧ (∀ pre rest : List Char, ∀ caps : List String, ∀ i : Nat, '#' ∉ pre →
          applyCapturesGo (pre ++ '#' :: rest) caps i
            = pre ++ (caps.getD i "").data ++ applyCapturesGo rest caps (i + 1))) :=
  ⟨⟨rfl, rfl⟩,
    materialize_capture_semantics [("tagId", JTree.str "A#B#"), ("label", JTree.str "L#"),
      ("description", JTree.str "D#")] "A1B2" "L#" "D#" rfl rfl⟩

end HmiLive
